import Mathlib

/-!
Verification of the wc-loader repository: a shallow embedding of the
component loader (`src/components.ts`), the module rewriter
(`src/rewriter.ts`), the reactive signal graph (`src/signals.ts`) and the
template binder's `#for` directive, together with proofs of the spec's
claims about them.

Browser collaborators (the custom-element registry, `new URL`, CSS
parsing, `fetch`) are modelled at their interface: the registry as an
overwriting name-to-constructor map, URL resolution as a small
WHATWG-style resolver, CSS parsing and fetching as oracle parameters.
Constructors, DOM nodes and effects are identified by natural numbers.
-/

/-! ## Component loader (`src/components.ts`, `loadComponent`) -/

/-- State of the loader and its browser environment: the global
custom-element registry (`customElements`, modelled as an overwriting map
from names to constructor identities), the loader's own tracking record
(`loadedComponentsRecord`, mapping a name to its source url and
constructor), and a counter supplying the identity of the next
constructor synthesized by `extendsElement`. -/
structure LoaderState where
  registry : String → Option Nat
  record : String → Option (String × Nat)
  nextCec : Nat

/-- Outcome of one `loadComponent` call: the cached fast path, a fresh
definition, the naming-conflict rejection (`NativeSFCError`), or a
rejection of the document fetch. -/
inductive LoadOutcome where
  | cached (cec : Nat)
  | defined (cec : Nat)
  | nameConflict
  | fetchError
deriving DecidableEq

/-- Result of one `loadComponent` call: the outcome, the state after the
call, and whether the call reached the network-fetch step
(`requestText`). -/
structure LoadResult where
  outcome : LoadOutcome
  state : LoaderState
  fetched : Bool

/-- The fetch-process-define tail of `loadComponent`
(`src/components.ts` lines 85-161): fetch the document (`fetchOk` is the
oracle for whether `requestText` succeeds), synthesize a fresh
constructor via `extendsElement`, register it with
`customElements.define`, and record it in `loadedComponentsRecord`. -/
def defineNew (st : LoaderState) (name url : String) (fetchOk : Bool) : LoadResult :=
  if fetchOk then
    let cec := st.nextCec
    { outcome := .defined cec
      state :=
        { registry := fun n => if n = name then some cec else st.registry n
          record := fun n => if n = name then some (url, cec) else st.record n
          nextCec := st.nextCec + 1 }
      fetched := true }
  else
    { outcome := .fetchError, state := st, fetched := true }

/-- `loadComponent(name, url)` (`src/components.ts` lines 56-161), after
the url has been resolved to an absolute url: if the name is registered
in `customElements` but not tracked by the loader, throw the
naming-conflict error; if tracked under the same url, return the cached
constructor without fetching; otherwise fetch, synthesize and define. -/
def loadComponent (st : LoaderState) (name url : String) (fetchOk : Bool) : LoadResult :=
  match st.registry name with
  | some _ =>
    match st.record name with
    | none => { outcome := .nameConflict, state := st, fetched := false }
    | some (u, cec) =>
      if u = url then { outcome := .cached cec, state := st, fetched := false }
      else defineNew st name url fetchOk
  | none => defineNew st name url fetchOk

/-- C1: if a call to loadComponent(name, url) completes successfully and
registers a constructor, then a second call with the same name and the
same resolved url returns the very same constructor from the tracking
record, performs no network fetch, and leaves the state unchanged. -/
theorem c1_idempotent_load (st : LoaderState) (name url : String)
    (fetchOk fetchOk' : Bool) (c : Nat)
    (h : (loadComponent st name url fetchOk).outcome = .defined c) :
    loadComponent (loadComponent st name url fetchOk).state name url fetchOk' =
      { outcome := .cached c
        state := (loadComponent st name url fetchOk).state
        fetched := false } := by
  unfold loadComponent defineNew at h ⊢
  rcases hr : st.registry name with _ | r
  · rw [hr] at h
    rcases fetchOk with _ | _
    · simp at h
    · simp_all
  · rw [hr] at h
    rcases hrec : st.record name with _ | ⟨u, cec⟩
    · rw [hrec] at h
      simp at h
    · rw [hrec] at h
      dsimp only at h
      by_cases hu : u = url
      · simp [hu] at h
      · rw [if_neg hu] at h
        rcases fetchOk with _ | _
        · simp at h
        · simp_all

/-- C1 witness: loading a fresh name defines constructor 0, and the second
call with the same pair returns it cached, without fetching. -/
theorem c1_idempotent_load_witness :
    (loadComponent (LoaderState.mk (fun _ => none) (fun _ => none) 0)
        "x-demo" "https://h/a.html" true).outcome = .defined 0 ∧
    loadComponent
        (loadComponent (LoaderState.mk (fun _ => none) (fun _ => none) 0)
          "x-demo" "https://h/a.html" true).state
        "x-demo" "https://h/a.html" false =
      { outcome := .cached 0
        state := (loadComponent (LoaderState.mk (fun _ => none) (fun _ => none) 0)
          "x-demo" "https://h/a.html" true).state
        fetched := false } :=
  ⟨rfl, c1_idempotent_load (LoaderState.mk (fun _ => none) (fun _ => none) 0)
    "x-demo" "https://h/a.html" true false 0 rfl⟩

/-- C2: if a name is present in the custom-element registry but absent
from the loader's tracking record, every call to loadComponent with that
name rejects with the naming-conflict error, regardless of url, leaves
the state unchanged, and performs no network fetch. -/
theorem c2_conflict_detection (st : LoaderState) (name url : String)
    (fetchOk : Bool)
    (hreg : (st.registry name).isSome) (hrec : st.record name = none) :
    loadComponent st name url fetchOk =
      { outcome := .nameConflict, state := st, fetched := false } := by
  unfold loadComponent
  rcases hr : st.registry name with _ | r
  · rw [hr] at hreg; simp at hreg
  · rw [hrec]

/-- C2 witness: a name registered externally (in the registry, not in the
record) makes loadComponent fail with the naming conflict, fetching
nothing. -/
theorem c2_conflict_detection_witness :
    ((LoaderState.mk (fun n => if n = "x-ext" then some 7 else none) (fun _ => none) 0).registry
        "x-ext").isSome = true ∧
    loadComponent (LoaderState.mk (fun n => if n = "x-ext" then some 7 else none) (fun _ => none) 0)
        "x-ext" "https://h/a.html" true =
      { outcome := .nameConflict
        state := LoaderState.mk (fun n => if n = "x-ext" then some 7 else none) (fun _ => none) 0
        fetched := false } :=
  ⟨by decide,
   c2_conflict_detection
     (LoaderState.mk (fun n => if n = "x-ext" then some 7 else none) (fun _ => none) 0)
     "x-ext" "https://h/a.html" true (by decide) rfl⟩

/-- C7: if a name is tracked by the loader with url `u1` and registered,
then loading it again from a different url fetches the new document,
defines a fresh constructor in the registry, replaces the tracking-record
entry with the new url and constructor, and returns the new
constructor. -/
theorem c7_redefine_last_write_wins (st : LoaderState) (name url u1 : String) (c1 : Nat)
    (hreg : (st.registry name).isSome) (hrec : st.record name = some (u1, c1))
    (hne : u1 ≠ url) :
    (loadComponent st name url true).outcome = .defined st.nextCec ∧
    (loadComponent st name url true).fetched = true ∧
    (loadComponent st name url true).state.record name = some (url, st.nextCec) ∧
    (loadComponent st name url true).state.registry name = some st.nextCec := by
  unfold loadComponent defineNew
  rcases hr : st.registry name with _ | r
  · rw [hr] at hreg; simp at hreg
  · rw [hrec]
    simp [hne]

/-- C7 witness: a tracked name loaded from a new url yields a fresh
constructor and the record now maps the name to the new url. -/
theorem c7_redefine_last_write_wins_witness :
    ((LoaderState.mk (fun n => if n = "x-demo" then some 0 else none)
        (fun n => if n = "x-demo" then some ("https://h/a.html", 0) else none) 1).registry
        "x-demo").isSome = true ∧
    ("https://h/a.html" ≠ "https://h/b.html") ∧
    (loadComponent
        (LoaderState.mk (fun n => if n = "x-demo" then some 0 else none)
          (fun n => if n = "x-demo" then some ("https://h/a.html", 0) else none) 1)
        "x-demo" "https://h/b.html" true).outcome = .defined 1 ∧
    (loadComponent
        (LoaderState.mk (fun n => if n = "x-demo" then some 0 else none)
          (fun n => if n = "x-demo" then some ("https://h/a.html", 0) else none) 1)
        "x-demo" "https://h/b.html" true).state.record "x-demo" =
      some ("https://h/b.html", 1) :=
  ⟨by decide, by decide,
   (c7_redefine_last_write_wins
     (LoaderState.mk (fun n => if n = "x-demo" then some 0 else none)
       (fun n => if n = "x-demo" then some ("https://h/a.html", 0) else none) 1)
     "x-demo" "https://h/b.html" "https://h/a.html" 0 (by decide) rfl (by decide)).1,
   (c7_redefine_last_write_wins
     (LoaderState.mk (fun n => if n = "x-demo" then some 0 else none)
       (fun n => if n = "x-demo" then some ("https://h/a.html", 0) else none) 1)
     "x-demo" "https://h/b.html" "https://h/a.html" 0 (by decide) rfl (by decide)).2.2.1⟩

/-! ## Signal graph (`src/signals.ts`)

Effects are identified by natural numbers.  A JS `Set` is modelled as a
duplicate-free list: `add` appends when absent, `delete` filters, and
`new Set(s)` copies the list. -/

/-- JS `Set.add`: append the element if it is not already present. -/
def addIfAbsent (x : Nat) (l : List Nat) : List Nat :=
  if x ∈ l then l else l ++ [x]

/-- State of one signal (`src/signals.ts` lines 119-152): its current
value and its subscriber set. -/
structure SignalSt (α : Type) where
  value : α
  subs : List Nat

/-- The `effectsToRun.forEach` loop of `write` (`src/signals.ts` lines
137-144): iterate over the snapshot, notifying each effect in turn
(`scheduler(effect)` or `effect()`).  Running an effect may mutate the
signal's live subscriber set; that is abstracted by `mutate`.  Returns
the final live subscriber set and the list of effects notified. -/
def notifyLoop (mutate : Nat → List Nat → List Nat) :
    List Nat → List Nat → List Nat × List Nat
  | [], subs => (subs, [])
  | e :: rest, subs =>
    let p := notifyLoop mutate rest (mutate e subs)
    (p.1, e :: p.2)

/-- `write` of a signal (`src/signals.ts` lines 134-146): a no-op when
the new value is reference-identical to the current one; otherwise update
the value, snapshot the subscriber set (`new Set(subscribers)`), and
notify each effect of the snapshot.  Returns the new signal state and
the list of notified effects. -/
def write {α : Type} [DecidableEq α] (mutate : Nat → List Nat → List Nat)
    (st : SignalSt α) (v : α) : SignalSt α × List Nat :=
  if st.value = v then (st, [])
  else
    let p := notifyLoop mutate st.subs st.subs
    ({ value := v, subs := p.1 }, p.2)

/-- Dependency-tracking state of the whole signal graph: every signal's
value and subscriber set (`subscribers` in `signal`), and every effect's
dependency list (`effect.deps`).  Signals and effects are indexed by
natural numbers; a computed value's subscriber set is a signal-like
source under the same indexing. -/
structure World where
  sigVal : Nat → Nat
  sigSubs : Nat → List Nat
  effDeps : Nat → List Nat

/-- `cleanup(effect)` (`src/signals.ts` lines 31-36): remove the effect
from every subscriber set recorded in `effect.deps`, then clear
`effect.deps`. -/
def cleanup (w : World) (e : Nat) : World :=
  { w with
    sigSubs := fun s =>
      if s ∈ w.effDeps e then (w.sigSubs s).filter (fun x => x ≠ e) else w.sigSubs s
    effDeps := fun f => if f = e then [] else w.effDeps f }

/-- A tracked read of signal `s` by the active effect `e` (`read` in
`signal`, `src/signals.ts` lines 123-129): `subscribers.add(activeEffect)`
and `activeEffect.deps.add(subscribers)`. -/
def trackRead (e : Nat) (w : World) (s : Nat) : World :=
  { w with
    sigSubs := fun t => if t = s then addIfAbsent e (w.sigSubs t) else w.sigSubs t
    effDeps := fun f => if f = e then addIfAbsent s (w.effDeps f) else w.effDeps f }

/-- One execution of the wrapper created by `effect` (`src/signals.ts`
lines 92-101): first `cleanup(effect)`, then run `fn` with `activeEffect`
set to this effect, so each signal read in `reads` re-registers the
effect. -/
def runEffect (w : World) (e : Nat) (reads : List Nat) : World :=
  reads.foldl (trackRead e) (cleanup w e)

/-- The bidirectional-edge invariant maintained by `read` and `cleanup`:
an effect appears in a source's subscriber set only if that source is
recorded in the effect's dependency list. -/
def Bidir (w : World) : Prop :=
  ∀ s e, e ∈ w.sigSubs s → s ∈ w.effDeps e

/-- `queueJob` (`src/signals.ts` lines 14-22): push the job unless it is
already enqueued. -/
def queueJob (q : List Nat) (job : Nat) : List Nat :=
  if job ∈ q then q else q ++ [job]

/-- The scheduler-level state: the dependency graph plus the job queue of
the microtask-batched scheduler. -/
structure Sys where
  world : World
  queue : List Nat

/-- `write` at the scheduler level, for the subscribers created by
`effect` (whose scheduler is `queueJob`, `src/signals.ts` line 103):
when the value changes, every subscriber in the snapshot is enqueued via
`queueJob`. -/
def sysWrite (sys : Sys) (a v : Nat) : Sys :=
  if sys.world.sigVal a = v then sys
  else
    { world := { sys.world with sigVal := fun s => if s = a then v else sys.world.sigVal s }
      queue := (sys.world.sigSubs a).foldl queueJob sys.queue }

/-- The `stop` closure returned by `effect` (`src/signals.ts` lines
108-110): it only calls `cleanup(effect)`; the job queue is untouched
and no liveness flag exists. -/
def stopEffect (sys : Sys) (e : Nat) : Sys :=
  { sys with world := cleanup sys.world e }

/-- `flushJobs` (`src/signals.ts` lines 24-29): snapshot the queue, clear
it, and run every dequeued job unconditionally (the code performs no
liveness check).  `reads e` gives the signals effect `e` reads when it
runs.  Returns the final state and the list of jobs executed. -/
def flushJobs (reads : Nat → List Nat) (sys : Sys) : Sys × List Nat :=
  let jobs := sys.queue
  (jobs.foldl (fun s e => { s with world := runEffect s.world e (reads e) })
    { sys with queue := [] }, jobs)

theorem notifyLoop_notified (mutate : Nat → List Nat → List Nat) :
    ∀ snapshot subs, (notifyLoop mutate snapshot subs).2 = snapshot := by
  intro snapshot
  induction snapshot with
  | nil => intro subs; rfl
  | cons e rest ih => intro subs; simp [notifyLoop, ih]

/-- C4: writing a reference-identical value is a no-op (state unchanged,
nobody notified); writing a different value updates the stored value and
notifies exactly the snapshot of the subscriber set taken when
notification starts, whatever mutations of the live subscriber set the
notified effects perform during the pass. -/
theorem c4_write_snapshot_semantics {α : Type} [DecidableEq α] :
    (∀ (mutate : Nat → List Nat → List Nat) (st : SignalSt α) (v : α),
      st.value = v → write mutate st v = (st, [])) ∧
    (∀ (mutate : Nat → List Nat → List Nat) (st : SignalSt α) (v : α),
      st.value ≠ v →
        (write mutate st v).1.value = v ∧ (write mutate st v).2 = st.subs) := by
  constructor
  · intro mutate st v h
    simp [write, h]
  · intro mutate st v h
    simp [write, h, notifyLoop_notified]

/-- C4 witness: on a signal holding 5 with subscribers 1 and 2, writing 5
again changes nothing and notifies nobody; writing 7 updates the value
and notifies exactly 1 and 2, even under a mutator that empties the live
subscriber set. -/
theorem c4_write_snapshot_semantics_witness :
    write (fun _ _ => []) (SignalSt.mk 5 [1, 2]) 5 = (SignalSt.mk 5 [1, 2], []) ∧
    (write (fun _ _ => []) (SignalSt.mk 5 [1, 2]) 7).1.value = 7 ∧
    (write (fun _ _ => []) (SignalSt.mk 5 [1, 2]) 7).2 = [1, 2] :=
  ⟨(c4_write_snapshot_semantics (α := Nat)).1 (fun _ _ => []) (SignalSt.mk 5 [1, 2]) 5 rfl,
   (c4_write_snapshot_semantics (α := Nat)).2 (fun _ _ => []) (SignalSt.mk 5 [1, 2]) 7 (by decide)⟩

theorem mem_addIfAbsent (x y : Nat) (l : List Nat) :
    x ∈ addIfAbsent y l ↔ x = y ∨ x ∈ l := by
  unfold addIfAbsent
  by_cases h : y ∈ l
  · simp only [if_pos h]
    constructor
    · intro hx; exact Or.inr hx
    · rintro (rfl | hx)
      · exact h
      · exact hx
  · simp [if_neg h, or_comm]

theorem foldl_trackRead_sigSubs (e : Nat) :
    ∀ (reads : List Nat) (w : World) (s : Nat),
      e ∈ (reads.foldl (trackRead e) w).sigSubs s ↔ s ∈ reads ∨ e ∈ w.sigSubs s := by
  intro reads
  induction reads with
  | nil => intro w s; simp
  | cons r rest ih =>
    intro w s
    simp only [List.foldl_cons, ih, trackRead, List.mem_cons]
    by_cases hs : s = r
    · subst hs
      simp only [eq_self_iff_true, ite_true, mem_addIfAbsent, true_or]
      tauto
    · simp only [if_neg hs]
      constructor
      · rintro (h | h)
        · exact Or.inl (Or.inr h)
        · exact Or.inr h
      · rintro ((h | h) | h)
        · exact absurd h hs
        · exact Or.inl h
        · exact Or.inr h

theorem foldl_trackRead_effDeps (e : Nat) :
    ∀ (reads : List Nat) (w : World) (s : Nat),
      s ∈ (reads.foldl (trackRead e) w).effDeps e ↔ s ∈ reads ∨ s ∈ w.effDeps e := by
  intro reads
  induction reads with
  | nil => intro w s; simp
  | cons r rest ih =>
    intro w s
    simp only [List.foldl_cons, ih, trackRead, List.mem_cons, eq_self_iff_true, ite_true]
    rw [mem_addIfAbsent]
    tauto

theorem cleanup_effDeps (w : World) (e : Nat) : (cleanup w e).effDeps e = [] := by
  simp [cleanup]

theorem cleanup_not_subscribed (w : World) (e : Nat) (hw : Bidir w) (s : Nat) :
    e ∉ (cleanup w e).sigSubs s := by
  unfold cleanup
  by_cases hd : s ∈ w.effDeps e
  · simp only [if_pos hd]
    intro hmem
    rcases List.mem_filter.mp hmem with ⟨_, hne⟩
    simp at hne
  · simp only [if_neg hd]
    intro hmem
    exact hd (hw s e hmem)

theorem foldl_queueJob_not_mem (e : Nat) :
    ∀ (subs q : List Nat), e ∉ q → e ∉ subs → e ∉ subs.foldl queueJob q := by
  intro subs
  induction subs with
  | nil => intro q hq _; exact hq
  | cons x rest ih =>
    intro q hq hs
    simp only [List.foldl_cons]
    apply ih
    · unfold queueJob
      by_cases hx : x ∈ q
      · simpa [if_pos hx]
      · simp only [if_neg hx, List.mem_append, List.mem_singleton]
        rintro (h | h)
        · exact hq h
        · exact hs (by simp [h])
    · intro h; exact hs (by simp [h])

/-- C5: under the bidirectional-edge invariant, `cleanup` (run immediately
before each re-execution) removes the effect from every subscriber set
and clears its dependency list; after the execution the effect is
subscribed to exactly the sources it read, and its dependency list holds
exactly those sources; consequently a write to a signal the last run did
not read never enqueues the effect. -/
theorem c5_stale_dependency_pruning (w : World) (e : Nat) (reads : List Nat)
    (hw : Bidir w) :
    ((cleanup w e).effDeps e = [] ∧ ∀ s, e ∉ (cleanup w e).sigSubs s) ∧
    (∀ s, e ∈ (runEffect w e reads).sigSubs s ↔ s ∈ reads) ∧
    (∀ s, s ∈ (runEffect w e reads).effDeps e ↔ s ∈ reads) ∧
    (∀ a v q, a ∉ reads → e ∉ q →
      e ∉ (sysWrite (Sys.mk (runEffect w e reads) q) a v).queue) := by
  refine ⟨⟨cleanup_effDeps w e, cleanup_not_subscribed w e hw⟩, ?_, ?_, ?_⟩
  · intro s
    unfold runEffect
    rw [foldl_trackRead_sigSubs]
    have : e ∉ (cleanup w e).sigSubs s := cleanup_not_subscribed w e hw s
    tauto
  · intro s
    unfold runEffect
    rw [foldl_trackRead_effDeps]
    simp [cleanup_effDeps]
  · intro a v q ha hq
    unfold sysWrite
    by_cases hv : (runEffect w e reads).sigVal a = v
    · simpa [if_pos hv]
    · simp only [if_neg hv]
      apply foldl_queueJob_not_mem e _ q hq
      intro hmem
      unfold runEffect at hmem
      rw [foldl_trackRead_sigSubs] at hmem
      rcases hmem with h | h
      · exact ha h
      · exact cleanup_not_subscribed w e hw a h

/-- C5 witness: effect 17 previously subscribed to signal 0 re-runs
reading only signal 1: it ends up subscribed to signal 1 and not to
signal 0, and a write to signal 0 does not enqueue it. -/
theorem c5_stale_dependency_pruning_witness :
    (17 ∈ (runEffect
        (World.mk (fun _ => 0) (fun s => if s = 0 then [17] else [])
          (fun e => if e = 17 then [0] else [])) 17 [1]).sigSubs 1) ∧
    ¬ (17 ∈ (runEffect
        (World.mk (fun _ => 0) (fun s => if s = 0 then [17] else [])
          (fun e => if e = 17 then [0] else [])) 17 [1]).sigSubs 0) ∧
    (17 ∉ (sysWrite (Sys.mk (runEffect
        (World.mk (fun _ => 0) (fun s => if s = 0 then [17] else [])
          (fun e => if e = 17 then [0] else [])) 17 [1]) []) 0 5).queue) := by
  have hw : Bidir (World.mk (fun _ => 0) (fun s => if s = 0 then [17] else [])
      (fun e => if e = 17 then [0] else [])) := by
    intro s e h
    by_cases hs : s = 0
    · subst hs
      simp only [World.mk] at h ⊢
      simp at h
      simp [h]
    · simp only [World.mk] at h
      simp [hs] at h
  have h := c5_stale_dependency_pruning
    (World.mk (fun _ => 0) (fun s => if s = 0 then [17] else [])
      (fun e => if e = 17 then [0] else [])) 17 [1] hw
  refine ⟨(h.2.1 1).mpr (by decide), ?_, ?_⟩
  · intro hmem
    have := (h.2.1 0).mp hmem
    simp at this
  · exact h.2.2.2 0 5 [] (by decide) (by decide)

/-- C6 counterexample: effect 0 subscribes to signal 0; a write enqueues
it, then its stop-function runs (detaching it), and the subsequent flush
still executes the dequeued job — the job list run by `flushJobs` is
`[0]`, not `[]` — and that run re-registers the stopped effect in signal
0's subscriber set.  The flush performs no liveness check. -/
theorem c6_stopped_effect_still_fires :
    (flushJobs (fun e => if e = 0 then [0] else [])
        (stopEffect
          (sysWrite
            (Sys.mk
              (World.mk (fun _ => 0) (fun s => if s = 0 then [0] else [])
                (fun e => if e = 0 then [0] else [])) [])
            0 1)
          0)).2 = [0] ∧
    0 ∈ (flushJobs (fun e => if e = 0 then [0] else [])
        (stopEffect
          (sysWrite
            (Sys.mk
              (World.mk (fun _ => 0) (fun s => if s = 0 then [0] else [])
                (fun e => if e = 0 then [0] else [])) [])
            0 1)
          0)).1.world.sigSubs 0 := by
  constructor
  · rfl
  · decide

/-- C6 (amended): invoking the stop-function detaches the effect from
every dependency set, so no subsequent signal write schedules it — an
effect absent from the job queue when stopped stays absent after any
later write; however a run already enqueued before stop still fires when
the queue is flushed, because `flushJobs` runs every dequeued job without
a liveness check (see the counterexample). -/
theorem c6_stop_detaches (sys : Sys) (e : Nat) (hw : Bidir sys.world) :
    (∀ s, e ∉ (stopEffect sys e).world.sigSubs s) ∧
    (∀ a v, e ∉ sys.queue → e ∉ (sysWrite (stopEffect sys e) a v).queue) := by
  constructor
  · intro s
    exact cleanup_not_subscribed sys.world e hw s
  · intro a v hq
    unfold sysWrite stopEffect
    by_cases hv : (cleanup sys.world e).sigVal a = v
    · simp only [if_pos hv]
      simpa using hq
    · simp only [if_neg hv]
      apply foldl_queueJob_not_mem e _ _ hq
      exact fun h => cleanup_not_subscribed sys.world e hw a h

/-- C6 (amended) witness: stopping effect 0 (subscribed to signal 0)
detaches it from signal 0 and a later write to signal 0 leaves the queue
without it. -/
theorem c6_stop_detaches_witness :
    (0 ∉ (stopEffect
        (Sys.mk (World.mk (fun _ => 0) (fun s => if s = 0 then [0] else [])
          (fun e => if e = 0 then [0] else [])) []) 0).world.sigSubs 0) ∧
    (0 ∉ (sysWrite (stopEffect
        (Sys.mk (World.mk (fun _ => 0) (fun s => if s = 0 then [0] else [])
          (fun e => if e = 0 then [0] else [])) []) 0) 0 1).queue) := by
  have hw : Bidir (World.mk (fun _ => 0) (fun s => if s = 0 then [0] else [])
      (fun e => if e = 0 then [0] else [])) := by
    intro s e h
    by_cases hs : s = 0
    · subst hs
      simp only [World.mk] at h ⊢
      simp at h
      simp [h]
    · simp only [World.mk] at h
      simp [hs] at h
  have h := c6_stop_detaches
    (Sys.mk (World.mk (fun _ => 0) (fun s => if s = 0 then [0] else [])
      (fun e => if e = 0 then [0] else [])) []) 0 hw
  exact ⟨h.1 0, h.2 0 1 (by decide)⟩

/-! ## Effect scopes (`src/signals.ts`, `EffectScope` and `effectScope`)

A scope's setup function is modelled as a list of operations: creating an
effect (which registers its stop-function with the ambient active scope)
or creating a nested scope via `effectScope` (which runs its own setup
with itself as the ambient scope and registers nothing with the parent:
`effectScope` only returns the stop closure). -/

/-- One step of a scope setup function: `effect(fn)` (identified by the
effect id whose stop-function is produced) or `effectScope(fn)` with a
nested setup. -/
inductive SetupOp where
  | mkEffect (eid : Nat)
  | mkScope (inner : List SetupOp)

/-- One `EffectScope` (`src/signals.ts` lines 49-80): the stop-functions
registered via `add`, and the `active` flag. -/
structure ScopeRec where
  effects : List Nat
  active : Bool
deriving DecidableEq

/-- Scope-level state: all scopes ever created (indexed by creation
order) and the log of effects whose stop-function has been invoked. -/
structure ScopeSys where
  scopes : List ScopeRec
  stopped : List Nat

/-- `effect`'s registration with the ambient scope (`src/signals.ts`
lines 112-114) via `EffectScope.add` (lines 65-71): push the
stop-function when the scope is active, otherwise invoke it at once. -/
def addToScope (cur : Option Nat) (eid : Nat) (sys : ScopeSys) : ScopeSys :=
  match cur with
  | none => sys
  | some sid =>
    match sys.scopes[sid]? with
    | none => sys
    | some sc =>
      if sc.active then
        { sys with scopes := sys.scopes.set sid { sc with effects := sc.effects ++ [eid] } }
      else
        { sys with stopped := sys.stopped ++ [eid] }

/-- Interpret a setup function under the ambient `activeScope`
(`src/signals.ts` lines 82-117): `mkEffect` registers the effect's stop
with the ambient scope; `mkScope` appends a fresh active scope, runs the
inner setup with that scope ambient (`EffectScope.run`, lines 53-63),
restores the ambient scope, and registers nothing with the parent
(`effectScope` only returns the nested scope's stop closure). -/
def interpOps (cur : Option Nat) (sys : ScopeSys) : List SetupOp → ScopeSys
  | [] => sys
  | .mkEffect eid :: rest => interpOps cur (addToScope cur eid sys) rest
  | .mkScope inner :: rest =>
    interpOps cur
      (interpOps (some sys.scopes.length)
        { sys with scopes := sys.scopes ++ [ScopeRec.mk [] true] } inner)
      rest

/-- `EffectScope.stop` (`src/signals.ts` lines 73-79): when active,
invoke every registered stop-function, clear the list and deactivate;
otherwise do nothing. -/
def stopScope (sys : ScopeSys) (sid : Nat) : ScopeSys :=
  match sys.scopes[sid]? with
  | none => sys
  | some sc =>
    if sc.active then
      { scopes := sys.scopes.set sid (ScopeRec.mk [] false)
        stopped := sys.stopped ++ sc.effects }
    else sys

/-- The effect ids registered directly by a setup function: its
`mkEffect` steps, skipping everything inside nested scopes. -/
def directEffects (ops : List SetupOp) : List Nat :=
  ops.filterMap fun op =>
    match op with
    | .mkEffect eid => some eid
    | .mkScope _ => none

theorem addToScope_scopes_length (cur : Option Nat) (eid : Nat) (sys : ScopeSys) :
    (addToScope cur eid sys).scopes.length = sys.scopes.length := by
  unfold addToScope
  rcases cur with _ | sid
  · rfl
  · rcases h : sys.scopes[sid]? with _ | sc
    · simp [h]
    · by_cases ha : sc.active
      · simp [h, ha]
      · simp [h, ha]

theorem addToScope_frame (cur : Option Nat) (eid : Nat) (sys : ScopeSys) (j : Nat)
    (hj : cur ≠ some j) :
    (addToScope cur eid sys).scopes[j]? = sys.scopes[j]? := by
  unfold addToScope
  rcases cur with _ | sid
  · rfl
  · rcases h : sys.scopes[sid]? with _ | sc
    · simp [h]
    · have hne : sid ≠ j := fun hh => hj (by rw [hh])
      by_cases ha : sc.active
      · simp [h, ha, List.getElem?_set_ne hne]
      · simp [h, ha]

theorem interpOps_scopes_length (cur : Option Nat) (sys : ScopeSys) (ops : List SetupOp) :
    sys.scopes.length ≤ (interpOps cur sys ops).scopes.length := by
  induction cur, sys, ops using interpOps.induct with
  | case1 cur sys => simp [interpOps]
  | case2 cur sys eid rest ih =>
    calc sys.scopes.length = (addToScope cur eid sys).scopes.length :=
          (addToScope_scopes_length cur eid sys).symm
      _ ≤ _ := by simpa [interpOps] using ih
  | case3 cur sys inner rest ih1 ih2 =>
    have h1 : sys.scopes.length ≤ sys.scopes.length + 1 := Nat.le_succ _
    rw [interpOps]
    refine le_trans h1 (le_trans ?_ ih2)
    simpa using ih1

theorem interpOps_frame (cur : Option Nat) (sys : ScopeSys) (ops : List SetupOp) :
    ∀ j, j < sys.scopes.length → cur ≠ some j →
      (interpOps cur sys ops).scopes[j]? = sys.scopes[j]? := by
  induction cur, sys, ops using interpOps.induct with
  | case1 cur sys => intro j hj hc; simp [interpOps]
  | case2 cur sys eid rest ih =>
    intro j hj hc
    rw [interpOps]
    rw [ih j (by rw [addToScope_scopes_length]; exact hj) hc]
    exact addToScope_frame cur eid sys j hc
  | case3 cur sys inner rest ih1 ih2 =>
    intro j hj hc
    rw [interpOps]
    have hlen1 : j < (ScopeSys.mk (sys.scopes ++ [ScopeRec.mk [] true]) sys.stopped).scopes.length := by
      simp
      omega
    have hinner := ih1 j hlen1 (by simp; omega)
    have hlen2 : j <
        (interpOps (some sys.scopes.length)
          { sys with scopes := sys.scopes ++ [ScopeRec.mk [] true] } inner).scopes.length := by
      refine lt_of_lt_of_le hlen1 ?_
      exact interpOps_scopes_length _ _ _
    rw [ih2 j hlen2 hc]
    rw [hinner]
    exact List.getElem?_append_left hj

theorem interpOps_direct (cur : Option Nat) (sys : ScopeSys) (ops : List SetupOp) :
    ∀ sid es, cur = some sid → sys.scopes[sid]? = some (ScopeRec.mk es true) →
      (interpOps cur sys ops).scopes[sid]? =
        some (ScopeRec.mk (es ++ directEffects ops) true) := by
  induction cur, sys, ops using interpOps.induct with
  | case1 cur sys =>
    intro sid es hc hs
    simp [interpOps, hs, directEffects]
  | case2 cur sys eid rest ih =>
    intro sid es hc hs
    subst hc
    rw [interpOps]
    have hlt : sid < sys.scopes.length := (List.getElem?_eq_some.mp hs).1
    have hadd : (addToScope (some sid) eid sys).scopes[sid]? =
        some (ScopeRec.mk (es ++ [eid]) true) := by
      simp only [addToScope, hs]
      simp [List.getElem?_set_eq_of_lt _ hlt]
    rw [ih sid (es ++ [eid]) rfl hadd]
    simp [directEffects, List.filterMap_cons]
  | case3 cur sys inner rest ih1 ih2 =>
    intro sid es hc hs
    subst hc
    rw [interpOps]
    have hlt : sid < sys.scopes.length := (List.getElem?_eq_some.mp hs).1
    have hfr := interpOps_frame (some sys.scopes.length)
      { sys with scopes := sys.scopes ++ [ScopeRec.mk [] true] } inner sid
      (by simp; omega) (by simp; omega)
    rw [ih2 sid es rfl (by rw [hfr]; simpa [List.getElem?_append_left hlt] using hs)]
    simp [directEffects, List.filterMap_cons]

/-- C10: running a setup function under scope `S` registers with `S`
exactly the stop-functions of the effects created directly in it — a
nested scope created by `effectScope` registers nothing with `S`, and the
effects created inside the nested setup register only there; hence
stopping `S` invokes exactly the direct effects' stop-functions and
leaves every other scope (in particular every nested scope and its
recorded effects) untouched. -/
theorem c10_scope_isolation (sys : ScopeSys) (S : Nat) (ops : List SetupOp) (es : List Nat)
    (hS : sys.scopes[S]? = some (ScopeRec.mk es true)) :
    (interpOps (some S) sys ops).scopes[S]? =
      some (ScopeRec.mk (es ++ directEffects ops) true) ∧
    (stopScope (interpOps (some S) sys ops) S).stopped =
      (interpOps (some S) sys ops).stopped ++ (es ++ directEffects ops) ∧
    (∀ j, j ≠ S → (stopScope (interpOps (some S) sys ops) S).scopes[j]? =
      (interpOps (some S) sys ops).scopes[j]?) := by
  have hmain := interpOps_direct (some S) sys ops S es rfl hS
  refine ⟨hmain, ?_, ?_⟩
  · unfold stopScope
    rw [hmain]
    simp
  · intro j hj
    unfold stopScope
    rw [hmain]
    simp only [ite_true]
    exact List.getElem?_set_ne (fun hh => hj hh.symm)

/-- C10 witness: scope 0's setup creates effect 1, a nested scope whose
setup creates effect 2, then effect 3; scope 0 records exactly the stops
of 1 and 3, stopping it stops exactly those, and the nested scope (index
1) still actively records effect 2 afterwards. -/
theorem c10_scope_isolation_witness :
    (interpOps (some 0) (ScopeSys.mk [ScopeRec.mk [] true] [])
        [.mkEffect 1, .mkScope [.mkEffect 2], .mkEffect 3]).scopes[0]? =
      some (ScopeRec.mk [1, 3] true) ∧
    (stopScope (interpOps (some 0) (ScopeSys.mk [ScopeRec.mk [] true] [])
        [.mkEffect 1, .mkScope [.mkEffect 2], .mkEffect 3]) 0).stopped = [1, 3] ∧
    (stopScope (interpOps (some 0) (ScopeSys.mk [ScopeRec.mk [] true] [])
        [.mkEffect 1, .mkScope [.mkEffect 2], .mkEffect 3]) 0).scopes[1]? =
      some (ScopeRec.mk [2] true) := by
  have h := c10_scope_isolation (ScopeSys.mk [ScopeRec.mk [] true] []) 0
    [.mkEffect 1, .mkScope [.mkEffect 2], .mkEffect 3] [] rfl
  refine ⟨by simpa [directEffects] using h.1, ?_, ?_⟩
  · rw [h.2.1]
    simp [interpOps, addToScope, directEffects]
  · rw [h.2.2 1 (by decide)]
    simp [interpOps, addToScope]

/-! ## Template binder, `#for` directive (`reactiveNodes`)

The `#for` handler replaces the element by a placeholder and installs an
effect whose body re-renders the whole list on every change.  Rendered
item subtrees (a cloned node plus the effect-scope teardown returned by
the recursive `reactiveNodes` call) are identified by natural numbers;
`nextId` supplies fresh identities for newly cloned subtrees. -/

/-- State carried between runs of the `#for` effect: the currently
rendered item subtrees, the log of subtrees whose teardown (`cleanup()`)
has been invoked, the log of subtrees removed from the DOM
(`node.remove()`), and a fresh-identity counter. -/
structure ForState where
  renderedItems : List Nat
  stopped : List Nat
  removed : List Nat
  nextId : Nat

/-- One run of the `#for` effect body (`reactiveNodes`, lines 129-151 of
the binder source): if the evaluated expression is not an array
(`none`), warn and return leaving everything in place; otherwise stop
and remove every previously rendered item, then clone one fresh subtree
per element of the new array.  Returns the new state and whether the
run warned. -/
def runForEffect {γ : Type} (st : ForState) (contexts : Option (List γ)) :
    ForState × Bool :=
  match contexts with
  | none => (st, true)
  | some ctxs =>
    ({ renderedItems := (List.range ctxs.length).map (fun i => st.nextId + i)
       stopped := st.stopped ++ st.renderedItems
       removed := st.removed ++ st.renderedItems
       nextId := st.nextId + ctxs.length }, false)

/-- C9: when the `#for` expression yields an array, the run tears down
every previously rendered item subtree (its teardown is invoked and its
node removed), creates exactly one fresh subtree per element of the new
array (no incremental diffing: none of the new subtrees is a previous
one), and does not warn. -/
theorem c9_for_full_rerender {γ : Type} (st : ForState) (ctxs : List γ)
    (hfresh : ∀ i ∈ st.renderedItems, i < st.nextId) :
    (runForEffect st (some ctxs)).1.renderedItems.length = ctxs.length ∧
    (∀ i ∈ st.renderedItems,
      i ∈ (runForEffect st (some ctxs)).1.stopped ∧
      i ∈ (runForEffect st (some ctxs)).1.removed) ∧
    (∀ i ∈ (runForEffect st (some ctxs)).1.renderedItems, i ∉ st.renderedItems) ∧
    (runForEffect st (some ctxs)).2 = false := by
  refine ⟨by simp [runForEffect], ?_, ?_, rfl⟩
  · intro i hi
    constructor
    · simp [runForEffect, hi]
    · simp [runForEffect, hi]
  · intro i hi hold
    simp only [runForEffect, List.mem_map, List.mem_range] at hi
    rcases hi with ⟨k, _, rfl⟩
    have := hfresh _ hold
    omega

/-- C9 witness: rendering `[1,2,3]` then `[1,2]` leaves exactly 2
rendered item subtrees, and each of the prior 3 subtrees has been
stopped and removed. -/
theorem c9_for_full_rerender_witness :
    ((runForEffect
        (runForEffect (ForState.mk [] [] [] 0) (some [1, 2, 3])).1
        (some [1, 2])).1.renderedItems.length = 2) ∧
    (∀ i ∈ (runForEffect (ForState.mk [] [] [] 0) (some [1, 2, 3])).1.renderedItems,
      i ∈ (runForEffect
        (runForEffect (ForState.mk [] [] [] 0) (some [1, 2, 3])).1
        (some [1, 2])).1.stopped ∧
      i ∈ (runForEffect
        (runForEffect (ForState.mk [] [] [] 0) (some [1, 2, 3])).1
        (some [1, 2])).1.removed) :=
  ⟨(c9_for_full_rerender
      (runForEffect (ForState.mk [] [] [] 0) (some [1, 2, 3])).1 [1, 2]
      (by decide)).1,
   (c9_for_full_rerender
      (runForEffect (ForState.mk [] [] [] 0) (some [1, 2, 3])).1 [1, 2]
      (by decide)).2.1⟩

/-! ## Adopted stylesheet collection (`src/components.ts`)

CSS parsing and link fetching are oracle parameters: `parseOk` says
whether `CSSStyleSheet.replaceSync` accepts a text, and each link is
given by the outcome of its `requestText` fetch. -/

/-- A constructible stylesheet (`new CSSStyleSheet()` after
`replaceSync`): `rules` holds the css text when parsing succeeded, and
`none` when `replaceSync` threw, leaving the sheet empty. -/
structure CSSSheet where
  rules : Option String
deriving DecidableEq

/-- `cssStyleSheetFromText` (`src/components.ts` lines 276-285): try to
parse the text into the sheet; on failure warn and return the sheet
anyway (empty).  The second component records whether it warned. -/
def cssStyleSheetFromText (parseOk : String → Bool) (styleText : String) :
    CSSSheet × Bool :=
  if parseOk styleText then (CSSSheet.mk (some styleText), false)
  else (CSSSheet.mk none, true)

/-- One iteration of the `<link rel="stylesheet">` loop of
`collectAdoptedStyleSheets` (`src/components.ts` lines 290-302): a
failed fetch warns and yields empty text; empty text is skipped;
otherwise the sheet built by `cssStyleSheetFromText` is pushed.  The
accumulator carries the adopted list and the warning count. -/
def processLink (parseOk : String → Bool) (acc : List CSSSheet × Nat)
    (link : Except Unit String) : List CSSSheet × Nat :=
  match link with
  | .error _ => (acc.1, acc.2 + 1)
  | .ok styleText =>
    if styleText = "" then acc
    else
      let s := cssStyleSheetFromText parseOk styleText
      (acc.1 ++ [s.1], acc.2 + (if s.2 then 1 else 0))

/-- One iteration of the `<style>` loop of `collectAdoptedStyleSheets`
(`src/components.ts` lines 304-310): empty text is skipped; otherwise
the sheet built by `cssStyleSheetFromText` is pushed. -/
def processStyle (parseOk : String → Bool) (acc : List CSSSheet × Nat)
    (styleText : String) : List CSSSheet × Nat :=
  if styleText = "" then acc
  else
    let s := cssStyleSheetFromText parseOk styleText
    (acc.1 ++ [s.1], acc.2 + (if s.2 then 1 else 0))

/-- `collectAdoptedStyleSheets` (`src/components.ts` lines 287-312):
process every stylesheet link (each given by its fetch outcome), then
every style element (given by its css text), accumulating the adopted
sheets and the warnings.  A total function: no input makes it reject. -/
def collectAdoptedStyleSheets (parseOk : String → Bool)
    (links : List (Except Unit String)) (styles : List String) :
    List CSSSheet × Nat :=
  styles.foldl (processStyle parseOk) (links.foldl (processLink parseOk) ([], 0))

theorem foldl_processLink (parseOk : String → Bool) :
    ∀ (links : List (Except Unit String)) (acc : List CSSSheet × Nat),
      links.foldl (processLink parseOk) acc =
        (acc.1 ++ links.flatMap (fun l =>
          match l with
          | .error _ => []
          | .ok t => if t = "" then [] else [(cssStyleSheetFromText parseOk t).1]),
         acc.2 + (links.map (fun l =>
          match l with
          | .error _ => 1
          | .ok t => if t = "" then 0
            else if (cssStyleSheetFromText parseOk t).2 then 1 else 0)).sum) := by
  intro links
  induction links with
  | nil => intro acc; simp
  | cons l rest ih =>
    intro acc
    rcases l with e | t
    · simp [List.foldl_cons, ih, processLink, Nat.add_assoc, Nat.add_comm 1]
    · by_cases ht : t = ""
      · simp [List.foldl_cons, ih, processLink, ht]
      · simp [List.foldl_cons, ih, processLink, ht, List.append_assoc, Nat.add_assoc]

theorem foldl_processStyle (parseOk : String → Bool) :
    ∀ (styles : List String) (acc : List CSSSheet × Nat),
      styles.foldl (processStyle parseOk) acc =
        (acc.1 ++ styles.flatMap (fun t =>
          if t = "" then [] else [(cssStyleSheetFromText parseOk t).1]),
         acc.2 + (styles.map (fun t =>
          if t = "" then 0
          else if (cssStyleSheetFromText parseOk t).2 then 1 else 0)).sum) := by
  intro styles
  induction styles with
  | nil => intro acc; simp
  | cons t rest ih =>
    intro acc
    by_cases ht : t = ""
    · simp [List.foldl_cons, ih, processStyle, ht]
    · simp [List.foldl_cons, ih, processStyle, ht, List.append_assoc, Nat.add_assoc]

/-- C8 counterexample: a component document with a single `<style>` whose
text is nonempty but unparsable.  Contrary to the claim that such a
stylesheet is skipped, `collectAdoptedStyleSheets` pushes the (empty)
sheet returned by `cssStyleSheetFromText`, so the adopted list has
length 1, not 0 (and one warning is emitted). -/
theorem c8_unparsable_sheet_is_pushed :
    ("%%%" ≠ "") ∧
    ((fun s => s != "%%%") "%%%") = false ∧
    (collectAdoptedStyleSheets (fun s => s != "%%%") [] ["%%%"]).1 = [CSSSheet.mk none] ∧
    (collectAdoptedStyleSheets (fun s => s != "%%%") [] ["%%%"]).1 ≠ [] ∧
    (collectAdoptedStyleSheets (fun s => s != "%%%") [] ["%%%"]).2 = 1 := by
  refine ⟨by decide, by decide, by decide, by decide, by decide⟩

/-- C8 (amended): the adopted-sheet collection never rejects and yields,
in order, one sheet per processed stylesheet: an empty text (style or
fetched link) contributes no sheet; a link whose fetch failed warns and
contributes no sheet; a nonempty text that fails to parse warns and
contributes an *empty* stylesheet (the sheet with no rules); a nonempty
text that parses contributes its sheet without warning. -/
theorem c8_stylesheet_error_recovery (parseOk : String → Bool)
    (links : List (Except Unit String)) (styles : List String) :
    collectAdoptedStyleSheets parseOk links styles =
      (links.flatMap (fun l =>
          match l with
          | .error _ => []
          | .ok t => if t = "" then [] else [(cssStyleSheetFromText parseOk t).1]) ++
        styles.flatMap (fun t =>
          if t = "" then [] else [(cssStyleSheetFromText parseOk t).1]),
       (links.map (fun l =>
          match l with
          | .error _ => 1
          | .ok t => if t = "" then 0
            else if (cssStyleSheetFromText parseOk t).2 then 1 else 0)).sum +
        (styles.map (fun t =>
          if t = "" then 0
          else if (cssStyleSheetFromText parseOk t).2 then 1 else 0)).sum) ∧
    (∀ t, parseOk t = false → cssStyleSheetFromText parseOk t = (CSSSheet.mk none, true)) := by
  constructor
  · unfold collectAdoptedStyleSheets
    rw [foldl_processLink, foldl_processStyle]
    simp
  · intro t ht
    simp [cssStyleSheetFromText, ht]

/-- C8 (amended) witness: one failed link, one empty style, one
unparsable style and one good style yield exactly the good sheet
preceded by the empty sheet of the unparsable style, with two
warnings. -/
theorem c8_stylesheet_error_recovery_witness :
    collectAdoptedStyleSheets (fun s => s != "%%%") [Except.error ()]
        ["", "%%%", "p (color: red)"] =
      ([CSSSheet.mk none, CSSSheet.mk (some "p (color: red)")], 2) ∧
    cssStyleSheetFromText (fun s => s != "%%%") "%%%" = (CSSSheet.mk none, true) := by
  have h := c8_stylesheet_error_recovery (fun s => s != "%%%") [Except.error ()]
    ["", "%%%", "p (color: red)"]
  exact ⟨by rw [h.1]; decide, h.2 "%%%" (by decide)⟩

/-! ## Module rewriter (`src/rewriter.ts`)

The module source is held as a character list, the import-specifier
offsets produced by the `es-module-lexer` parse are taken as input, and
`new URL(specifier, sourceUrl).href` is abstracted by a `resolve`
parameter (with `resolveUrl` below as its concrete WHATWG-style
model). -/


/-- Prefix test on character lists; `strStartsWith` below models
`String.startsWith` over the string's characters (so that it evaluates
by kernel reduction). -/
def startsWithList : List Char → List Char → Bool
  | _, [] => true
  | [], _ :: _ => false
  | c :: cs, p :: ps => c = p && startsWithList cs ps

/-- `String.startsWith`, modelled over the character lists. -/
def strStartsWith (s p : String) : Bool :=
  startsWithList s.data p.data

/-- `isBrowserUrl` (`src/rewriter.ts` lines 31-39). -/
def isBrowserUrl (url : String) : Bool :=
  strStartsWith url "http://" || strStartsWith url "https://" ||
  strStartsWith url "blob:http://" || strStartsWith url "blob:https://" ||
  strStartsWith url "data:"

/-- Split a character list at the first occurrence of `pat`, returning
the parts before and after it. -/
def splitFirst (pat : List Char) : List Char → Option (List Char × List Char)
  | [] => none
  | c :: cs =>
    if startsWithList (c :: cs) pat then some ([], (c :: cs).drop pat.length)
    else
      match splitFirst pat cs with
      | none => none
      | some (pre, post) => some (c :: pre, post)

/-- Split a character list on a separator character. -/
def splitOnChar (sep : Char) : List Char → List (List Char)
  | [] => [[]]
  | c :: cs =>
    let r := splitOnChar sep cs
    if c = sep then [] :: r
    else
      match r with
      | [] => [[c]]
      | h :: t => (c :: h) :: t

/-- Path-segment normalization of the WHATWG URL merge algorithm:
`.` segments are dropped and `..` segments pop the previous one. -/
def normalizeSegs (segs : List (List Char)) : List (List Char) :=
  segs.foldl (fun acc seg =>
    if seg = ['.'] then acc
    else if seg = ['.', '.'] then acc.dropLast
    else acc ++ [seg]) []

/-- Model of the browser URL constructor `new URL(spec, base).href` for
http(s) bases without query or fragment: a spec starting with `/` is
taken from the base's origin; otherwise the spec's segments are merged
onto the base's directory and dot-segments are normalized. -/
def resolveUrl (spec base : String) : String :=
  match splitFirst "://".data base.data with
  | none => base
  | some (scheme, rest) =>
    match splitOnChar '/' rest with
    | [] => base
    | host :: pathSegs =>
      let specSegs := splitOnChar '/' spec.data
      let merged :=
        if strStartsWith spec "/" then normalizeSegs (specSegs.drop 1)
        else normalizeSegs (pathSegs.dropLast ++ specSegs)
      String.mk (scheme ++ "://".data ++ host ++ '/' :: List.intercalate ['/'] merged)

/-- The per-specifier rewrite of `rewriteModule`'s splice loop
(`src/rewriter.ts` lines 18-24): relative and root-relative specifiers
resolve against the source url (`resolve` abstracts `new URL`); every
other (bare) specifier is redirected to `https://esm.sh/`. -/
def rewriteSpecifier (resolve : String → String → String) (sourceUrl spec : String) : String :=
  if strStartsWith spec "." || strStartsWith spec "/" then resolve spec sourceUrl
  else "https://esm.sh/" ++ spec

/-- The filter of `rewriteModule` (`src/rewriter.ts` lines 7-10): a
specifier is rewritable unless it is already a browser url or a data
url. -/
def rewritableB (spec : String) : Bool :=
  !(isBrowserUrl spec) && !(strStartsWith spec "data:")

/-- `code.slice(s, e)` on a module source held as a character list. -/
def sliceChars (code : List Char) (s e : Nat) : List Char :=
  (code.drop s).take (e - s)

/-- One iteration of the splice loop (`src/rewriter.ts` lines 12-26):
re-extract the specifier from the current code, rewrite it, and splice
the rewritten text over the `[s, e)` range. -/
def spliceOne (resolve : String → String → String) (sourceUrl : String)
    (code : List Char) (entry : Nat × Nat) : List Char :=
  let spec := String.mk (sliceChars code entry.1 entry.2)
  let rewritten := rewriteSpecifier resolve sourceUrl spec
  code.take entry.1 ++ rewritten.data ++ code.drop entry.2

/-- The import-rewriting loop of `rewriteModule` (`src/rewriter.ts`
lines 5-26): filter the rewritable imports (offsets produced by the
`es-module-lexer` parse, taken as input), reverse them so splices run
from the highest offset down, and splice each one. -/
def rewriteImports (resolve : String → String → String) (sourceUrl : String)
    (code : List Char) (imports : List (Nat × Nat)) : List Char :=
  ((imports.filter (fun i => rewritableB (String.mk (sliceChars code i.1 i.2)))).reverse).foldl
    (spliceOne resolve sourceUrl) code

/-- Model of `JSON.stringify` on a string: quote it, escaping quotes and
backslashes. -/
def jsonStringify (s : String) : String :=
  "\"" ++ String.mk (s.data.flatMap fun c =>
    if c = '"' ∨ c = '\\' then ['\\', c] else [c]) ++ "\""

/-- `rewriteModule` (`src/rewriter.ts` lines 4-29): rewrite the import
specifiers, then prepend the statement pinning `import.meta.url` to the
original source url. -/
def rewriteModule (resolve : String → String → String) (code : List Char)
    (sourceUrl : String) (imports : List (Nat × Nat)) : List Char :=
  ("import.meta.url=" ++ jsonStringify sourceUrl ++ ";\n").data ++
    rewriteImports resolve sourceUrl code imports

/-- Well-formedness of the lexer's import offsets over a code of length
`n`, starting at `pos`: each entry `[s, e)` satisfies `pos ≤ s ≤ e ≤ n`
and the entries are disjoint and in source order. -/
def okEntries (n : Nat) : Nat → List (Nat × Nat) → Bool
  | _, [] => true
  | pos, (s, e) :: rest =>
    decide (pos ≤ s) && decide (s ≤ e) && decide (e ≤ n) && okEntries n e rest

/-- Specification-side description of the rewritten code from position
`pos` on: the text between import specifiers kept verbatim, each
rewritable specifier replaced by its rewrite, each browser/data-url
specifier kept verbatim. -/
def expectedOut (resolve : String → String → String) (sourceUrl : String) (code : List Char)
    (pos : Nat) : List (Nat × Nat) → List Char
  | [] => code.drop pos
  | entry :: rest =>
    (code.drop pos).take (entry.1 - pos) ++
      (if rewritableB (String.mk (sliceChars code entry.1 entry.2)) then
        (rewriteSpecifier resolve sourceUrl (String.mk (sliceChars code entry.1 entry.2))).data
      else sliceChars code entry.1 entry.2) ++
      expectedOut resolve sourceUrl code entry.2 rest

theorem take_before_tail (code : List Char) (T : List Char) (s e : Nat)
    (hse : s ≤ e) (hen : e ≤ code.length) :
    (code.take e ++ T).take s = code.take s := by
  rw [List.take_append_of_le_length (by simp [List.length_take]; omega)]
  rw [List.take_take]
  simp [min_eq_left hse]

theorem drop_before_tail (code : List Char) (T : List Char) (e : Nat)
    (hen : e ≤ code.length) :
    (code.take e ++ T).drop e = T := by
  rw [List.drop_append_of_le_length (by simp [List.length_take]; omega)]
  rw [List.drop_take]
  simp

theorem slice_before_tail (code : List Char) (T : List Char) (s e : Nat)
    (hse : s ≤ e) (hen : e ≤ code.length) :
    sliceChars (code.take e ++ T) s e = sliceChars code s e := by
  unfold sliceChars
  rw [List.drop_append_of_le_length (by simp [List.length_take]; omega)]
  rw [List.drop_take]
  rw [List.take_append_of_le_length (by simp [List.length_take, List.length_drop]; omega)]
  rw [List.take_take]
  simp

theorem take_merge (code : List Char) (pos s : Nat) (hps : pos ≤ s) :
    code.take pos ++ (code.drop pos).take (s - pos) = code.take s := by
  rw [← List.take_add]
  congr 1
  omega

theorem expectedOut_cons (resolve : String → String → String) (url : String)
    (code : List Char) (pos s e : Nat) (rest : List (Nat × Nat)) :
    expectedOut resolve url code pos ((s, e) :: rest) =
      (code.drop pos).take (s - pos) ++
        ((if rewritableB (String.mk (sliceChars code s e)) then
          (rewriteSpecifier resolve url (String.mk (sliceChars code s e))).data
        else sliceChars code s e) ++
        expectedOut resolve url code e rest) := by
  simp [expectedOut]

theorem rewriteImports_spec (resolve : String → String → String) (url : String)
    (code : List Char) :
    ∀ (imports : List (Nat × Nat)) (pos : Nat),
      okEntries code.length pos imports = true →
      ((imports.filter
          (fun i => rewritableB (String.mk (sliceChars code i.1 i.2)))).reverse).foldl
        (spliceOne resolve url) code =
      code.take pos ++ expectedOut resolve url code pos imports := by
  intro imports
  induction imports with
  | nil =>
    intro pos _
    simp [expectedOut]
  | cons entry rest ih =>
    intro pos h
    obtain ⟨s, e⟩ := entry
    simp only [okEntries, Bool.and_eq_true, decide_eq_true_eq] at h
    obtain ⟨⟨⟨hps, hse⟩, hen⟩, hrest⟩ := h
    have hok : okEntries code.length e rest = true := hrest
    by_cases hb : rewritableB (String.mk (sliceChars code s e)) = true
    · rw [List.filter_cons_of_pos (by simpa using hb), List.reverse_cons, List.foldl_append]
      rw [ih e hok]
      show spliceOne resolve url (code.take e ++ expectedOut resolve url code e rest) (s, e) = _
      unfold spliceOne
      simp only []
      rw [slice_before_tail code _ s e hse hen]
      rw [take_before_tail code _ s e hse hen]
      rw [drop_before_tail code _ e hen]
      rw [expectedOut_cons]
      rw [if_pos hb]
      rw [← take_merge code pos s hps]
      simp [List.append_assoc]
    · rw [List.filter_cons_of_neg (by simpa using hb)]
      rw [ih e hok]
      rw [expectedOut_cons]
      rw [if_neg (by simpa using hb)]
      have hslice : code.take s ++ sliceChars code s e = code.take e := take_merge code s e hse
      rw [← hslice]
      rw [← take_merge code pos s hps]
      simp [List.append_assoc]

/-- C3: rewriting a module splices the code highest offset first, so the
result is exactly the original text with every rewritable import
specifier replaced in place: specifiers starting with `.` or `/` are
replaced by their resolution against the source url, bare specifiers by
`https://esm.sh/` followed by the specifier, and absolute
http(s)/blob/data specifiers (filtered out up front) are left unchanged,
with all text outside the specifiers kept verbatim; concretely,
`./a.js` against `https://h/dir/c.html` resolves to
`https://h/dir/a.js`, `lodash` rewrites to `https://esm.sh/lodash`, and
`https://q/w.js` and data urls are not rewritable. -/
theorem c3_import_specifier_rewriting :
    (∀ (resolve : String → String → String) (code : List Char) (url : String)
      (imports : List (Nat × Nat)),
      okEntries code.length 0 imports = true →
      rewriteModule resolve code url imports =
        ("import.meta.url=" ++ jsonStringify url ++ ";\n").data ++
          expectedOut resolve url code 0 imports) ∧
    resolveUrl "./a.js" "https://h/dir/c.html" = "https://h/dir/a.js" ∧
    rewriteSpecifier resolveUrl "https://h/dir/c.html" "lodash" = "https://esm.sh/lodash" ∧
    rewritableB "https://q/w.js" = false ∧
    rewritableB "data:text/javascript,1" = false := by
  refine ⟨?_, by decide, by decide, by decide, by decide⟩
  intro resolve code url imports h
  unfold rewriteModule rewriteImports
  rw [rewriteImports_spec resolve url code imports 0 h]
  simp

/-- C3 witness: a module with a relative, a bare and an absolute
specifier rewrites to the expected text, character for character. -/
theorem c3_import_specifier_rewriting_witness :
    okEntries ("A./a.jsBlodashChttps://qD".data.length) 0 [(1, 7), (8, 14), (15, 24)] = true ∧
    rewriteModule resolveUrl "A./a.jsBlodashChttps://qD".data "https://h/dir/c.html"
        [(1, 7), (8, 14), (15, 24)] =
      ("import.meta.url=\"https://h/dir/c.html\";\nAhttps://h/dir/a.jsBhttps://esm.sh/lodashChttps://qD").data := by
  refine ⟨by decide, ?_⟩
  rw [c3_import_specifier_rewriting.1 resolveUrl "A./a.jsBlodashChttps://qD".data
    "https://h/dir/c.html" [(1, 7), (8, 14), (15, 24)] (by decide)]
  decide
